import Mathlib

/-!
Verification of the AtomECS per-tick simulation kernel against its
natural-language specification.  The Rust source is embedded shallowly:
`f64` arithmetic is modelled exactly over `ℚ` where the code is exact
rational arithmetic, and over `ℝ` where the code uses transcendental
functions (`powf`, `sqrt`, `π`); `i64`/`i32` values are modelled as `ℤ`;
fallible operations (indexing, `unwrap`) return `Option`.
-/

/-- Three-component vector of rationals, modelling `nalgebra::Vector3<f64>`
(and `[f64; 3]`) in contexts where the code performs exact arithmetic. -/
abbrev Vec3 : Type := ℚ × ℚ × ℚ

/-- Dot product of two 3-vectors, modelling `Vector3::dot`. -/
def dot3 (a b : Vec3) : ℚ :=
  a.1 * b.1 + a.2.1 * b.2.1 + a.2.2 * b.2.2

/-- Scalar multiple of a 3-vector. -/
def smul3 (c : ℚ) (v : Vec3) : Vec3 :=
  (c * v.1, c * v.2.1, c * v.2.2)

/-- Componentwise difference of 3-vectors (`Prod` subtraction is
componentwise, matching `nalgebra`). -/
def sub3 (a b : Vec3) : Vec3 :=
  (a.1 - b.1, a.2.1 - b.2.1, a.2.2 - b.2.2)

/-- Componentwise sum of 3-vectors. -/
def add3 (a b : Vec3) : Vec3 :=
  (a.1 + b.1, a.2.1 + b.2.1, a.2.2 + b.2.2)

/-! ## Spatial partition (src/partition.rs) -/

/-- The reserved sentinel cell id, `i64::MAX` in the code
(src/partition.rs line 141 and lines 228-233). -/
def sentinel : ℤ := 2 ^ 63 - 1

/-- Embedding of `pos_to_id` (src/partition.rs lines 222-250).
`bound = (n as f64) / 2.0 * width`; any coordinate of magnitude strictly
greater than `bound` yields the sentinel id `i64::MAX`; otherwise the
per-axis indices are `floor(p_i / width + 0.5 * n)` and the flattened id
is `xp + n * yp + n^2 * zp`. -/
def pos_to_id (pos : Vec3) (n : ℤ) (width : ℚ) : ℤ :=
  let bound : ℚ := (n : ℚ) / 2 * width
  if |pos.1| > bound then sentinel
  else if |pos.2.1| > bound then sentinel
  else if |pos.2.2| > bound then sentinel
  else
    let xp : ℤ := ⌊pos.1 / width + 0.5 * (n : ℚ)⌋
    let yp : ℤ := ⌊pos.2.1 / width + 0.5 * (n : ℚ)⌋
    let zp : ℤ := ⌊pos.2.2 / width + 0.5 * (n : ℚ)⌋
    xp + n * yp + n ^ 2 * zp

/-! ## Quadrupole field (src/magnetic/quadrupole.rs) -/

/-- Embedding of `Sample3DQuadrupoleFieldSystem::calculate_field`
(src/magnetic/quadrupole.rs lines 45-55): `delta = pos - centre`,
`z_comp = delta.dot(direction) * direction`, `r_comp = delta - z_comp`,
returning `gradient * (r_comp - 2 * z_comp)`. -/
def calculate_field (pos centre : Vec3) (gradient : ℚ) (direction : Vec3) : Vec3 :=
  let delta := sub3 pos centre
  let z_comp := smul3 (dot3 delta direction) direction
  let r_comp := sub3 delta z_comp
  smul3 gradient (sub3 r_comp (smul3 2 z_comp))

/-- Embedding of `PartitionCell` (src/partition.rs lines 26-34).
Floating-point statistics fields are modelled over `ℚ`, the `i32` counters
over `ℤ` (the counts reached here stay far below `2^31`). -/
structure PartitionCell where
  velocities : List Vec3
  expected_collision_number : ℚ
  collision_number : ℤ
  density : ℚ
  volume : ℚ
  atom_number : ℚ
  particle_number : ℤ
  deriving Repr, DecidableEq

/-- Embedding of `PartitionCell::default` (src/partition.rs lines 36-48). -/
def PartitionCell.default : PartitionCell :=
  { velocities := []
    expected_collision_number := 0
    density := 0
    volume := 0
    atom_number := 0
    collision_number := 0
    particle_number := 0 }

/-- Embedding of `PartitionCell::count_particles` (src/partition.rs
lines 52-54): sets `particle_number` to the length of `velocities`. -/
def PartitionCell.count_particles (c : PartitionCell) : PartitionCell :=
  { c with particle_number := (c.velocities.length : ℤ) }

/-- Push one velocity onto a cell's velocity list, as in
`map.entry(boxid.id).or_default().velocities.push(*velocity)`
(src/partition.rs line 144). -/
def PartitionCell.push (c : PartitionCell) (v : Vec3) : PartitionCell :=
  { c with velocities := c.velocities ++ [v] }

/-- The `HashMap<i64, PartitionCell>` of src/partition.rs, modelled as an
association list with distinct keys. -/
abbrev CellMap : Type := List (ℤ × PartitionCell)

/-- The `map.entry(id).or_default()` followed by a velocity push
(src/partition.rs line 144): update the existing entry for `id`, or append
a fresh default cell holding the single velocity. -/
def mapInsert (m : CellMap) (id : ℤ) (v : Vec3) : CellMap :=
  match m with
  | [] => [(id, PartitionCell.default.push v)]
  | (k, c) :: rest =>
      if k = id then (k, c.push v) :: rest else (k, c) :: mapInsert rest id v

/-- The velocity-insertion loop of `BuildSpatialPartitionSystem::run`
(src/partition.rs lines 139-146): fold over the `(velocity, boxid)` pairs,
skipping any particle whose id equals `i64::MAX`. -/
def buildMapRaw (particles : List (Vec3 × ℤ)) (m : CellMap) : CellMap :=
  match particles with
  | [] => m
  | (v, id) :: rest =>
      buildMapRaw rest (if id = sentinel then m else mapInsert m id v)

/-- The counting pass of `BuildSpatialPartitionSystem::run`
(src/partition.rs lines 147-150): `count_particles` on every cell. -/
def countCells (m : CellMap) : CellMap :=
  m.map (fun kc => (kc.1, kc.2.count_particles))

/-- Embedding of `BuildSpatialPartitionSystem::run`
(src/partition.rs lines 105-152) acting on a list of particles given as
`(position, velocity)` pairs: ids are assigned by `pos_to_id`, then the
velocity hashmap is built and the per-cell counts are taken. -/
def buildRun (n : ℤ) (width : ℚ) (particles : List (Vec3 × Vec3)) : CellMap :=
  countCells
    (buildMapRaw (particles.map (fun pv => (pv.2, pos_to_id pv.1 n width))) [])

/-! ## Magnetic field grid (src/magnetic/grid.rs) -/

/-- Embedding of `PrecalculatedMagneticFieldGrid`
(src/magnetic/grid.rs lines 26-31). -/
structure FieldGrid where
  extent_spatial : Vec3
  position : Vec3
  extent_cells : ℤ × ℤ × ℤ
  grid : List Vec3
  deriving Repr, DecidableEq

/-- Embedding of `PrecalculatedMagneticFieldGrid::position_to_grid_index`
(src/magnetic/grid.rs lines 34-45): `delta = pos - position + extent/2`,
`fraction = delta ./ extent`, each fraction clamped by `.max(0.0).min(1.0)`,
scaled by the cell count and truncated (`as i32`; truncation towards zero
coincides with `⌊·⌋` on these nonnegative values), then flattened as
`e1 * (e0 * c0 + c1) + c2`. -/
def position_to_grid_index (g : FieldGrid) (pos : Vec3) : ℤ :=
  let dx := pos.1 - g.position.1 + g.extent_spatial.1 / 2
  let dy := pos.2.1 - g.position.2.1 + g.extent_spatial.2.1 / 2
  let dz := pos.2.2 - g.position.2.2 + g.extent_spatial.2.2 / 2
  let cx : ℤ := ⌊min (max (dx / g.extent_spatial.1) 0) 1 * (g.extent_cells.1 : ℚ)⌋
  let cy : ℤ := ⌊min (max (dy / g.extent_spatial.2.1) 0) 1 * (g.extent_cells.2.1 : ℚ)⌋
  let cz : ℤ := ⌊min (max (dz / g.extent_spatial.2.2) 0) 1 * (g.extent_cells.2.2 : ℚ)⌋
  g.extent_cells.2.1 * (g.extent_cells.1 * cx + cy) + cz

/-- Embedding of `PrecalculatedMagneticFieldGrid::get_field`
(src/magnetic/grid.rs lines 47-50): index the flattened field array at the
computed index.  The Rust code `self.grid[index as usize]` panics when the
index is negative or not below `grid.len()`; both failure modes are
modelled as `none`. -/
def get_field (g : FieldGrid) (pos : Vec3) : Option Vec3 :=
  let index := position_to_grid_index g pos
  if index < 0 then none else g.grid.get? index.toNat

/-- The specification formula for the quadrupole field:
`field = gradient * (radial_component - 2 * axial_component)`, where the
axial component is the projection of `pos - centre` onto the normalized
symmetry axis and the radial component is the remainder.  Stated from the
specification text for comparison with `calculate_field`. -/
def quadFieldSpec (pos centre : Vec3) (gradient : ℚ) (direction : Vec3) : Vec3 :=
  let axial := smul3 (dot3 (sub3 pos centre) direction) direction
  let radial := sub3 (sub3 pos centre) axial
  smul3 gradient (sub3 radial (smul3 2 axial))

/-! ## Magnetic source aggregation (src/magnetic/quadrupole.rs lines 64-76,
src/magnetic/grid.rs lines 64-71) -/

/-- A magnetic source entity: either a 3D quadrupole (gradient, normalized
symmetry axis, centre position) or a precalculated field grid. -/
inductive MagSource where
  | quadrupole (centre : Vec3) (gradient : ℚ) (direction : Vec3) : MagSource
  | grid (g : FieldGrid) : MagSource

/-- The field contributed by one magnetic source at a sampler position:
`Sample3DQuadrupoleFieldSystem::calculate_field` for a quadrupole
(src/magnetic/quadrupole.rs lines 67-72), `get_field` for a grid
(src/magnetic/grid.rs line 67, `none` when the grid lookup panics). -/
def MagSource.fieldAt : MagSource → Vec3 → Option Vec3
  | .quadrupole centre gradient direction, pos =>
      some (calculate_field pos centre gradient direction)
  | .grid g, pos => get_field g pos

/-- One accumulation step `sampler.field = sampler.field + field`
(src/magnetic/quadrupole.rs line 73, src/magnetic/grid.rs line 68). -/
def sampleStep (pos : Vec3) (f : Vec3) (s : MagSource) : Vec3 :=
  f + (s.fieldAt pos).getD 0

/-- The net sampled field at one particle after both sampling systems have
iterated over all magnetic sources, starting from the sampler's initial
value: a left fold of the accumulation step over the source list. -/
def sampleAll (init : Vec3) (sources : List MagSource) (pos : Vec3) : Vec3 :=
  sources.foldl (sampleStep pos) init

/-! ## Two-level population (src/laser/twolevel.rs) -/

/-- The total transition rate `sum_rates` accumulated by the loop in
`CalculateTwoLevelPopulationSystem::run` (src/laser/twolevel.rs
lines 64-68). -/
def sum_rates (rates : List ℝ) : ℝ := rates.sum

/-- The steady-state excited fraction as a function of the total rate `s`:
`s / (linewidth * 2 * π + 2 * s)` (src/laser/twolevel.rs line 69). -/
noncomputable def excitedOfSum (linewidth s : ℝ) : ℝ :=
  s / (linewidth * 2 * Real.pi + 2 * s)

/-- Embedding of the excited-state assignment `twolevel.excited =
sum_rates / (atominfo.linewidth * 2. * PI + 2. * sum_rates)`
(src/laser/twolevel.rs line 69). -/
noncomputable def twoLevelExcited (linewidth : ℝ) (rates : List ℝ) : ℝ :=
  excitedOfSum linewidth (sum_rates rates)

/-- Embedding of `TwoLevelPopulation` (src/laser/twolevel.rs lines 11-16). -/
structure TwoLevelPopulation where
  ground : ℝ
  excited : ℝ

/-- Embedding of the per-entity body of
`CalculateTwoLevelPopulationSystem::run` (src/laser/twolevel.rs
lines 57-73): sets `excited`, then `calculate_ground_state` sets
`ground = 1 - excited` (lines 31-33). -/
noncomputable def calculateTwoLevelPopulationRun
    (linewidth : ℝ) (rates : List ℝ) : TwoLevelPopulation :=
  let e := twoLevelExcited linewidth rates
  { ground := 1 - e, excited := e }

/-! ## Partition rescaling (src/partition.rs lines 155-220) -/

/-- Embedding of `get_min` (src/partition.rs lines 209-214): minimum of a
list of floats, `none` when the list is empty (the Rust `unwrap` panics). -/
def get_min : List ℝ → Option ℝ
  | [] => none
  | x :: xs =>
      match get_min xs with
      | none => some x
      | some m => some (min x m)

/-- Embedding of `get_max` (src/partition.rs lines 215-220): maximum of a
list of floats, `none` when the list is empty. -/
def get_max : List ℝ → Option ℝ
  | [] => none
  | x :: xs =>
      match get_max xs with
      | none => some x
      | some m => some (max x m)

/-- Embedding of `PartitionParameters` (src/partition.rs lines 60-67). -/
structure PartitionParameters where
  box_number : ℤ
  box_width : ℝ
  target_density : ℝ

/-- Embedding of `RescalePartitionCellSystem::run` (src/partition.rs
lines 164-206).  Inputs: the `particle_number` of each cell of the current
hashmap, the per-axis position coordinate lists of the live atoms, and the
current parameters.  When the cell set is empty, `total / cells.len()` is
the float division `0 / 0`, producing `NaN`, which then propagates into
`box_width`; this undefined outcome is modelled as `none`, as is the
`unwrap` panic of `get_min`/`get_max` on an empty coordinate list.  The
width is scaled by `(target_density / average).powf(1/3)` (line 185) and
the box number is the ceiling of `range / box_width` (lines 204-205),
where — exactly as in lines 198-202 of the source — the y and z ranges are
computed against `get_min(&xs)`, not against the minima of `ys` and `zs`. -/
noncomputable def rescaleRun (cells : List ℤ) (xs ys zs : List ℝ)
    (p : PartitionParameters) : Option PartitionParameters :=
  if cells.length = 0 then none
  else
    let total : ℤ := cells.sum
    let average_particles_per_cell : ℝ := (total : ℝ) / (cells.length : ℝ)
    let scale_factor : ℝ :=
      (p.target_density / average_particles_per_cell) ^ ((1 : ℝ) / 3)
    let new_width : ℝ := p.box_width * scale_factor
    match get_max xs, get_min xs, get_max ys, get_max zs with
    | some xmax, some xmin, some ymax, some zmax =>
        let xrange := xmax - xmin
        let yrange := ymax - xmin
        let zrange := zmax - xmin
        match get_max [xrange, yrange, zrange] with
        | some range =>
            some { box_number := ⌈range / new_width⌉
                   box_width := new_width
                   target_density := p.target_density }
        | none => none
    | _, _, _, _ => none

/-- The bounding-box extent as the specification words it: the largest of
the per-axis max-minus-min position ranges.  Stated from the specification
text for comparison with the ranges computed inside `rescaleRun`. -/
def boundingBoxRangeSpec (xs ys zs : List ℝ) : Option ℝ :=
  match get_max xs, get_min xs, get_max ys, get_min ys, get_max zs, get_min zs with
  | some xmax, some xmin, some ymax, some ymin, some zmax, some zmin =>
      some (max (xmax - xmin) (max (ymax - ymin) (zmax - zmin)))
  | _, _, _, _, _, _ => none

/-! ## Ring detector (src/output.rs) -/

/-- Modelled from the spec: the repository's `maths` module (referenced by
src/output.rs but not present under src/) supplies Euclidean helpers; the
dot product of two `[f64; 3]` arrays. -/
def dot3R (a b : ℝ × ℝ × ℝ) : ℝ :=
  a.1 * b.1 + a.2.1 * b.2.1 + a.2.2 * b.2.2

/-- Modelled from the spec: `maths::modulus`, the Euclidean length of a
`[f64; 3]` array. -/
noncomputable def modulus3R (v : ℝ × ℝ × ℝ) : ℝ :=
  Real.sqrt (v.1 ^ 2 + v.2.1 ^ 2 + v.2.2 ^ 2)

/-- Modelled from the spec: `maths::norm`, the unit vector along a
`[f64; 3]` array (the spec calls the detector axis a direction vector and
the code normalizes it before projecting). -/
noncomputable def normalize3R (v : ℝ × ℝ × ℝ) : ℝ × ℝ × ℝ :=
  ((1 / modulus3R v) * v.1, (1 / modulus3R v) * v.2.1, (1 / modulus3R v) * v.2.2)

/-- Embedding of `RingDetector` (src/output.rs lines 145-157). -/
structure RingDetector where
  centre : ℝ × ℝ × ℝ
  direction : ℝ × ℝ × ℝ
  radius : ℝ
  width : ℝ
  thickness : ℝ

/-- Embedding of `if_detect_ring` (src/output.rs lines 118-130).
`rela_pos = position - centre`, `distance_axial` is the projection onto
the normalized axis, and `distance_radial = (modulus(rela_pos)^2 -
distance_axial^2).powf(0.5)`, modelled by `Real.sqrt` (for a negative
radicand the Rust `powf` yields `NaN`, every comparison against which is
false; `Real.sqrt` yields `0`, and the conjunction below is equally false
for positive `thickness`, the only case the claim concerns).  The function
returns the conjunction of the four radial comparisons of lines 124-128. -/
noncomputable def radialDistance (d : RingDetector) (position : ℝ × ℝ × ℝ) : ℝ :=
  let dir := normalize3R d.direction
  let rela_pos : ℝ × ℝ × ℝ :=
    (position.1 - d.centre.1, position.2.1 - d.centre.2.1, position.2.2 - d.centre.2.2)
  let distance_axial := dot3R rela_pos dir
  Real.sqrt (modulus3R rela_pos ^ 2 - distance_axial ^ 2)

/-- The containment predicate of `if_detect_ring` (src/output.rs
lines 124-128): all four comparisons of the radial distance must hold,
including both `distance_radial < thickness * 0.5` and
`distance_radial < thickness * (-0.5)`. -/
noncomputable def if_detect_ring (d : RingDetector) (position : ℝ × ℝ × ℝ) : Prop :=
  radialDistance d position > d.radius ∧
  radialDistance d position < d.radius + d.width ∧
  radialDistance d position < d.thickness * 0.5 ∧
  radialDistance d position < d.thickness * (-0.5)

/-- The state of a cell during the insertion pass: a non-empty velocity
list with every statistics field still at its default zero. -/
def CellFresh (c : PartitionCell) : Prop :=
  c.velocities ≠ [] ∧ c.density = 0 ∧ c.volume = 0 ∧ c.atom_number = 0 ∧
    c.expected_collision_number = 0 ∧ c.collision_number = 0 ∧
    c.particle_number = 0

/-! ## Helper lemmas -/

theorem pos_to_id_eq_sentinel_of (pos : Vec3) (n : ℤ) (width : ℚ)
    (h : (n : ℚ) / 2 * width < |pos.1| ∨ (n : ℚ) / 2 * width < |pos.2.1| ∨
      (n : ℚ) / 2 * width < |pos.2.2|) :
    pos_to_id pos n width = sentinel := by
  unfold pos_to_id
  simp only []
  split_ifs with hx hy hz
  · rfl
  · rfl
  · rfl
  · rcases h with h | h | h
    · exact absurd h hx
    · exact absurd h hy
    · exact absurd h hz

theorem pos_to_id_eq_flat_of (pos : Vec3) (n : ℤ) (width : ℚ)
    (h1 : |pos.1| ≤ (n : ℚ) / 2 * width) (h2 : |pos.2.1| ≤ (n : ℚ) / 2 * width)
    (h3 : |pos.2.2| ≤ (n : ℚ) / 2 * width) :
    pos_to_id pos n width =
      ⌊pos.1 / width + 0.5 * (n : ℚ)⌋ + n * ⌊pos.2.1 / width + 0.5 * (n : ℚ)⌋ +
        n ^ 2 * ⌊pos.2.2 / width + 0.5 * (n : ℚ)⌋ := by
  unfold pos_to_id
  simp [not_lt.mpr h1, not_lt.mpr h2, not_lt.mpr h3]


theorem axis_in_range (p : ℚ) (n : ℤ) (width : ℚ) (hw : 0 < width)
    (h0 : 0 ≤ ⌊p / width + 0.5 * (n : ℚ)⌋) (h1 : ⌊p / width + 0.5 * (n : ℚ)⌋ < n) :
    |p| ≤ (n : ℚ) / 2 * width := by
  have hx0 : (0 : ℚ) ≤ p / width + 0.5 * (n : ℚ) := by exact_mod_cast Int.le_floor.mp h0
  have hx1 : p / width + 0.5 * (n : ℚ) < (n : ℚ) := by exact_mod_cast Int.floor_lt.mp h1
  have h2 : -(0.5 * (n : ℚ)) ≤ p / width := by linarith
  have h3 : p / width < 0.5 * (n : ℚ) := by linarith
  have h4 : -(0.5 * (n : ℚ)) * width ≤ p := (le_div_iff₀ hw).mp h2
  have h5 : p < 0.5 * (n : ℚ) * width := (div_lt_iff₀ hw).mp h3
  have heq : (n : ℚ) / 2 * width = 0.5 * (n : ℚ) * width := by ring
  exact abs_le.mpr ⟨by linarith, by linarith⟩

theorem axis_bound_cases (p : ℚ) (n : ℤ) (width : ℚ) (hw : 0 < width)
    (h : ⌊p / width + 0.5 * (n : ℚ)⌋ < 0 ∨ n ≤ ⌊p / width + 0.5 * (n : ℚ)⌋) :
    (n : ℚ) / 2 * width < |p| ∨ p = (n : ℚ) / 2 * width := by
  have heq : (n : ℚ) / 2 * width = 0.5 * (n : ℚ) * width := by ring
  rcases h with h | h
  · have hx : p / width + 0.5 * (n : ℚ) < 0 := by exact_mod_cast Int.floor_lt.mp h
    have h2 : p / width < -(0.5 * (n : ℚ)) := by linarith
    have h3 : p < -(0.5 * (n : ℚ)) * width := (div_lt_iff₀ hw).mp h2
    exact Or.inl (lt_abs.mpr (Or.inr (by linarith)))
  · have hx : (n : ℚ) ≤ p / width + 0.5 * (n : ℚ) := by exact_mod_cast Int.le_floor.mp h
    have h2 : 0.5 * (n : ℚ) ≤ p / width := by linarith
    have h3 : 0.5 * (n : ℚ) * width ≤ p := (le_div_iff₀ hw).mp h2
    rcases eq_or_lt_of_le h3 with h4 | h4
    · exact Or.inr (by linarith)
    · exact Or.inl (lt_abs.mpr (Or.inl (by linarith)))

/-- C1 (amended): for positive box count and width, a position all of whose
axis indices lie in `[0, n)` receives the flattened id; a position with an
axis index outside `[0, n)` receives the sentinel unless one of its
coordinates equals the upper bound `n * width / 2` exactly; and the three
concrete examples of the claim hold. -/
theorem pos_to_id_amended (pos : Vec3) (n : ℤ) (width : ℚ)
    (hn : 0 < n) (hw : 0 < width) :
    ((0 ≤ ⌊pos.1 / width + 0.5 * (n : ℚ)⌋ ∧ ⌊pos.1 / width + 0.5 * (n : ℚ)⌋ < n) →
     (0 ≤ ⌊pos.2.1 / width + 0.5 * (n : ℚ)⌋ ∧ ⌊pos.2.1 / width + 0.5 * (n : ℚ)⌋ < n) →
     (0 ≤ ⌊pos.2.2 / width + 0.5 * (n : ℚ)⌋ ∧ ⌊pos.2.2 / width + 0.5 * (n : ℚ)⌋ < n) →
      pos_to_id pos n width =
        ⌊pos.1 / width + 0.5 * (n : ℚ)⌋ + n * ⌊pos.2.1 / width + 0.5 * (n : ℚ)⌋ +
          n ^ 2 * ⌊pos.2.2 / width + 0.5 * (n : ℚ)⌋) ∧
    ((⌊pos.1 / width + 0.5 * (n : ℚ)⌋ < 0 ∨ n ≤ ⌊pos.1 / width + 0.5 * (n : ℚ)⌋ ∨
      ⌊pos.2.1 / width + 0.5 * (n : ℚ)⌋ < 0 ∨ n ≤ ⌊pos.2.1 / width + 0.5 * (n : ℚ)⌋ ∨
      ⌊pos.2.2 / width + 0.5 * (n : ℚ)⌋ < 0 ∨ n ≤ ⌊pos.2.2 / width + 0.5 * (n : ℚ)⌋) →
      pos_to_id pos n width = sentinel ∨
        pos.1 = (n : ℚ) / 2 * width ∨ pos.2.1 = (n : ℚ) / 2 * width ∨
          pos.2.2 = (n : ℚ) / 2 * width) ∧
    pos_to_id (0, 0, 0) 10 2 = 555 ∧ pos_to_id (2, 0, 0) 10 2 = 556 ∧
      pos_to_id (10.1, 0, 0) 10 2 = sentinel := by
  refine ⟨?_, ?_, ?_, ?_, ?_⟩
  · intro hx hy hz
    exact pos_to_id_eq_flat_of pos n width
      (axis_in_range _ n width hw hx.1 hx.2)
      (axis_in_range _ n width hw hy.1 hy.2)
      (axis_in_range _ n width hw hz.1 hz.2)
  · intro h
    rcases h with h | h | h | h | h | h
    · rcases axis_bound_cases pos.1 n width hw (Or.inl h) with h2 | h2
      · exact Or.inl (pos_to_id_eq_sentinel_of pos n width (Or.inl h2))
      · exact Or.inr (Or.inl h2)
    · rcases axis_bound_cases pos.1 n width hw (Or.inr h) with h2 | h2
      · exact Or.inl (pos_to_id_eq_sentinel_of pos n width (Or.inl h2))
      · exact Or.inr (Or.inl h2)
    · rcases axis_bound_cases pos.2.1 n width hw (Or.inl h) with h2 | h2
      · exact Or.inl (pos_to_id_eq_sentinel_of pos n width (Or.inr (Or.inl h2)))
      · exact Or.inr (Or.inr (Or.inl h2))
    · rcases axis_bound_cases pos.2.1 n width hw (Or.inr h) with h2 | h2
      · exact Or.inl (pos_to_id_eq_sentinel_of pos n width (Or.inr (Or.inl h2)))
      · exact Or.inr (Or.inr (Or.inl h2))
    · rcases axis_bound_cases pos.2.2 n width hw (Or.inl h) with h2 | h2
      · exact Or.inl (pos_to_id_eq_sentinel_of pos n width (Or.inr (Or.inr h2)))
      · exact Or.inr (Or.inr (Or.inr h2))
    · rcases axis_bound_cases pos.2.2 n width hw (Or.inr h) with h2 | h2
      · exact Or.inl (pos_to_id_eq_sentinel_of pos n width (Or.inr (Or.inr h2)))
      · exact Or.inr (Or.inr (Or.inr h2))
  · norm_num [pos_to_id, sentinel]
  · norm_num [pos_to_id, sentinel]
  · norm_num [pos_to_id, sentinel, abs_of_nonneg]

/-- C1 counterexample: at `pos = (10, 0, 0)`, `n = 10`, `width = 2` the x
axis index is `10`, outside `[0, 10)`, yet `pos_to_id` returns the regular
flattened id `560`, not the sentinel — refuting the claim that any
out-of-range axis index yields the sentinel. -/
theorem pos_to_id_boundary_counterexample :
    (10 : ℤ) ≤ ⌊(10 : ℚ) / 2 + 0.5 * (10 : ℚ)⌋ ∧
    pos_to_id (10, 0, 0) 10 2 = 560 ∧ (560 : ℤ) ≠ sentinel := by
  norm_num [pos_to_id, sentinel]

/-- C1 witness: the amended theorem applied at `pos = (0,0,0)`, `n = 10`,
`width = 2`. -/
theorem pos_to_id_amended_witness :
    (0 : ℤ) < 10 ∧ (0 : ℚ) < 2 ∧ pos_to_id (0, 0, 0) 10 2 = 555 ∧
      pos_to_id (2, 0, 0) 10 2 = 556 := by
  refine ⟨by norm_num, by norm_num, ?_, ?_⟩
  · exact (pos_to_id_amended (0, 0, 0) 10 2 (by norm_num) (by norm_num)).2.2.1
  · exact (pos_to_id_amended (0, 0, 0) 10 2 (by norm_num) (by norm_num)).2.2.2.1

/-- C8: the quadrupole field of `calculate_field` equals the specification
formula `gradient * (radial - 2 * axial)` for every sampler position,
centre, gradient and symmetry axis, and the concrete example holds:
at `pos = (1,1,1)`, centre `(0,1,0)`, gradient `1`, axis `z` the field is
`(1, 0, -2)`. -/
theorem calculate_field_matches_spec :
    (∀ (pos centre : Vec3) (gradient : ℚ) (direction : Vec3),
      calculate_field pos centre gradient direction =
        quadFieldSpec pos centre gradient direction) ∧
    calculate_field (1, 1, 1) (0, 1, 0) 1 (0, 0, 1) = (1, 0, -2) := by
  constructor
  · intro pos centre gradient direction
    rfl
  · norm_num [calculate_field, sub3, smul3, dot3]

/-- C3: with an empty cell set, `RescalePartitionCellSystem::run` does not
leave `box_width` and `box_number` at defined values: the average-occupancy
computation divides `0` by `0` and the assigned parameters are undefined
(`NaN` in the code, `none` in the model), for every atom-position input and
every prior parameter value. -/
theorem rescale_empty_cells_no_defined_result :
    ∀ (xs ys zs : List ℝ) (p : PartitionParameters),
      rescaleRun [] xs ys zs p = none := by
  intro xs ys zs p
  simp [rescaleRun]

/-- C4: a well-formed grid (positive cell counts, non-empty field array of
matching size `1 = 1*1*1`) queried at a position on the upper boundary of
its spatial extent computes index `1`, outside the array bounds, and the
lookup fails (`self.grid[index]` panics in the code) — refuting the claim
that the computed index is always within bounds. -/
theorem grid_get_field_boundary_out_of_bounds :
    position_to_grid_index ⟨(2, 2, 2), (0, 0, 0), (1, 1, 1), [(0, 0, 0)]⟩ (1, 0, 0) = 1 ∧
    List.length [((0, 0, 0) : Vec3)] = 1 ∧
    get_field ⟨(2, 2, 2), (0, 0, 0), (1, 1, 1), [(0, 0, 0)]⟩ (1, 0, 0) = none := by
  refine ⟨?_, rfl, ?_⟩
  · norm_num [position_to_grid_index, min_def, max_def]
  · norm_num [get_field, position_to_grid_index, min_def, max_def]

/-- C5: at a failing input — two occupied cells of 2 particles each,
`target_density = 2` (so the width scale factor is exactly 1 and the width
stays 1), atoms at `(-10, 0, 0)` and `(0, 1, 0)` — the code sets
`box_number = 11` because the y range is computed as `max(ys) - min(xs)`,
while the largest per-axis max-minus-min range is `10`, so the claimed
`box_number = ⌈10 / 1⌉ = 10` differs. -/
theorem rescale_box_number_mixes_axes :
    rescaleRun [2, 2] [-10, 0] [0, 1] [0, 0] ⟨100, 1, 2⟩ =
      some ⟨11, 1, 2⟩ ∧
    boundingBoxRangeSpec [-10, 0] [0, 1] [0, 0] = some 10 ∧
    ⌈(10 : ℝ) / 1⌉ = 10 ∧ (11 : ℤ) ≠ 10 := by
  refine ⟨?_, ?_, by norm_num, by norm_num⟩
  · norm_num [rescaleRun, get_max, get_min, min_def, max_def, Real.one_rpow]
  · norm_num [boundingBoxRangeSpec, get_max, get_min, min_def, max_def]

/-- C2: for positive natural linewidth and non-negative per-beam rate
coefficients, the system sets `excited = ΣR / (Γ·2π + 2·ΣR)` and
`ground = 1 - excited`; the excited fraction lies in `[0, 1)`, equals `0`
when the total rate is `0` (the denominator is strictly positive, so no
division by zero occurs), and is monotone in the total rate. -/
theorem two_level_population_properties (linewidth : ℝ) (rates : List ℝ)
    (hl : 0 < linewidth) (hr : ∀ r ∈ rates, 0 ≤ r) :
    (calculateTwoLevelPopulationRun linewidth rates).excited =
        sum_rates rates / (linewidth * 2 * Real.pi + 2 * sum_rates rates) ∧
    (calculateTwoLevelPopulationRun linewidth rates).excited =
        excitedOfSum linewidth (sum_rates rates) ∧
    (calculateTwoLevelPopulationRun linewidth rates).ground =
        1 - (calculateTwoLevelPopulationRun linewidth rates).excited ∧
    0 < linewidth * 2 * Real.pi + 2 * sum_rates rates ∧
    0 ≤ (calculateTwoLevelPopulationRun linewidth rates).excited ∧
    (calculateTwoLevelPopulationRun linewidth rates).excited < 1 ∧
    (sum_rates rates = 0 → (calculateTwoLevelPopulationRun linewidth rates).excited = 0) ∧
    (∀ s t : ℝ, 0 ≤ s → s ≤ t →
      excitedOfSum linewidth s ≤ excitedOfSum linewidth t) := by
  have hs : 0 ≤ sum_rates rates := List.sum_nonneg hr
  have hc : 0 < linewidth * 2 * Real.pi := by positivity
  have hd : 0 < linewidth * 2 * Real.pi + 2 * sum_rates rates := by linarith
  refine ⟨rfl, rfl, rfl, hd, ?_, ?_, ?_, ?_⟩
  · exact div_nonneg hs hd.le
  · exact (div_lt_one hd).mpr (by linarith)
  · intro h0
    simp only [calculateTwoLevelPopulationRun, twoLevelExcited, excitedOfSum, h0, zero_div]
  · intro s t hs0 hst
    have hds : 0 < linewidth * 2 * Real.pi + 2 * s := by linarith
    have hdt : 0 < linewidth * 2 * Real.pi + 2 * t := by linarith
    unfold excitedOfSum
    rw [div_le_div_iff₀ hds hdt]
    nlinarith [mul_nonneg (sub_nonneg.mpr hst) hc.le]

/-- C2 witness: the theorem applied at `linewidth = 1` and the single-beam
rate list `[3]`. -/
theorem two_level_population_properties_witness :
    (0 : ℝ) < 1 ∧ (∀ r ∈ ([3] : List ℝ), 0 ≤ r) ∧
    (0 ≤ (calculateTwoLevelPopulationRun 1 [3]).excited ∧
      (calculateTwoLevelPopulationRun 1 [3]).excited < 1) := by
  refine ⟨by norm_num, by norm_num, ?_, ?_⟩
  · exact (two_level_population_properties 1 [3] (by norm_num) (by norm_num)).2.2.2.2.1
  · exact (two_level_population_properties 1 [3] (by norm_num) (by norm_num)).2.2.2.2.2.1

/-- C7: for every ring detector with positive thickness and every position,
the containment test of `if_detect_ring` is unsatisfiable — the radial
distance is a square root, hence non-negative, and can never be below
`thickness * (-0.5) < 0` — so `DetectingAtomSystem` never absorbs a
particle through such a ring detector. -/
theorem ring_detector_detects_nothing (d : RingDetector) (position : ℝ × ℝ × ℝ)
    (ht : 0 < d.thickness) : ¬ if_detect_ring d position := by
  intro h
  have h4 : radialDistance d position < d.thickness * (-0.5) := h.2.2.2
  have h0 : 0 ≤ radialDistance d position := Real.sqrt_nonneg _
  nlinarith

/-- C7 witness: the theorem applied to a concrete ring detector of
thickness 1 and a concrete position. -/
theorem ring_detector_detects_nothing_witness :
    (0 : ℝ) < 1 ∧
    ¬ if_detect_ring ⟨(0, 0, 0), (0, 0, 1), 1, 1, 1⟩ (2, 0, 0) := by
  exact ⟨by norm_num, ring_detector_detects_nothing ⟨(0, 0, 0), (0, 0, 1), 1, 1, 1⟩
    (2, 0, 0) (by norm_num)⟩

theorem sampleAll_eq_add_sum (pos : Vec3) :
    ∀ (sources : List MagSource) (init : Vec3),
      sampleAll init sources pos =
        init + (sources.map (fun s => (s.fieldAt pos).getD 0)).sum := by
  intro sources
  induction sources with
  | nil => intro init; simp [sampleAll]
  | cons s rest ih =>
      intro init
      simp only [sampleAll, List.foldl_cons, List.map_cons, List.sum_cons]
      rw [show List.foldl (sampleStep pos) (sampleStep pos init s) rest =
        sampleAll (sampleStep pos init s) rest pos from rfl, ih]
      simp [sampleStep, add_assoc]

/-- C6: for every initial sampler value, particle position and list of
magnetic sources whose field lookups all succeed, the aggregated sampled
field equals the initial value plus the sum of the per-source field
contributions, and permuting the source list leaves the result unchanged
exactly (the model uses exact rational arithmetic). -/
theorem magnetic_aggregation_order_invariant (init pos : Vec3)
    (sources sources' : List MagSource)
    (hperm : sources.Perm sources')
    (hsome : ∀ s ∈ sources, (s.fieldAt pos).isSome) :
    sampleAll init sources pos =
        init + (sources.map (fun s => (s.fieldAt pos).getD 0)).sum ∧
    sampleAll init sources pos = sampleAll init sources' pos := by
  refine ⟨sampleAll_eq_add_sum pos sources init, ?_⟩
  rw [sampleAll_eq_add_sum pos sources init, sampleAll_eq_add_sum pos sources' init]
  rw [(hperm.map (fun s => (s.fieldAt pos).getD 0)).sum_eq]

/-- C6 witness: the theorem applied to two concrete quadrupole sources in
the two possible orders. -/
theorem magnetic_aggregation_order_invariant_witness :
    ([MagSource.quadrupole (0, 0, 0) 1 (0, 0, 1),
      MagSource.quadrupole (1, 0, 0) 2 (0, 0, 1)].Perm
      [MagSource.quadrupole (1, 0, 0) 2 (0, 0, 1),
       MagSource.quadrupole (0, 0, 0) 1 (0, 0, 1)]) ∧
    (∀ s ∈ [MagSource.quadrupole (0, 0, 0) 1 (0, 0, 1),
      MagSource.quadrupole (1, 0, 0) 2 (0, 0, 1)], (s.fieldAt (1, 1, 1)).isSome) ∧
    sampleAll 0 [MagSource.quadrupole (0, 0, 0) 1 (0, 0, 1),
        MagSource.quadrupole (1, 0, 0) 2 (0, 0, 1)] (1, 1, 1) =
      sampleAll 0 [MagSource.quadrupole (1, 0, 0) 2 (0, 0, 1),
        MagSource.quadrupole (0, 0, 0) 1 (0, 0, 1)] (1, 1, 1) := by
  have hperm : [MagSource.quadrupole ((0 : ℚ), (0 : ℚ), (0 : ℚ)) 1 (0, 0, 1),
      MagSource.quadrupole (1, 0, 0) 2 (0, 0, 1)].Perm
      [MagSource.quadrupole (1, 0, 0) 2 (0, 0, 1),
       MagSource.quadrupole (0, 0, 0) 1 (0, 0, 1)] :=
    List.Perm.swap _ _ _
  have hsome : ∀ s ∈ [MagSource.quadrupole ((0 : ℚ), (0 : ℚ), (0 : ℚ)) 1 (0, 0, 1),
      MagSource.quadrupole (1, 0, 0) 2 (0, 0, 1)], (s.fieldAt (1, 1, 1)).isSome := by
    intro s hs
    rcases List.mem_cons.mp hs with hs | hs
    · simp [hs, MagSource.fieldAt]
    · rcases List.mem_cons.mp hs with hs | hs
      · simp [hs, MagSource.fieldAt]
      · simp at hs
  exact ⟨hperm, hsome,
    (magnetic_aggregation_order_invariant 0 (1, 1, 1) _ _ hperm hsome).2⟩

theorem mem_keys_mapInsert :
    ∀ (m : CellMap) (id : ℤ) (v : Vec3) (k : ℤ),
      k ∈ (mapInsert m id v).map Prod.fst → k ∈ m.map Prod.fst ∨ k = id := by
  intro m id v
  induction m with
  | nil =>
      intro k hk
      simp only [mapInsert, List.map_cons, List.map_nil, List.mem_cons,
        List.not_mem_nil, or_false] at hk
      exact Or.inr hk
  | cons kc rest ih =>
      obtain ⟨k1, c1⟩ := kc
      intro k hk
      simp only [mapInsert] at hk
      split_ifs at hk with h
      · simp only [List.map_cons, List.mem_cons] at hk
        rcases hk with hk | hk
        · exact Or.inl (by simp [hk])
        · exact Or.inl (by simp only [List.map_cons, List.mem_cons]; exact Or.inr hk)
      · simp only [List.map_cons, List.mem_cons] at hk
        rcases hk with hk | hk
        · exact Or.inl (by simp [hk])
        · rcases ih k hk with h2 | h2
          · exact Or.inl (by simp only [List.map_cons, List.mem_cons]; exact Or.inr h2)
          · exact Or.inr h2

theorem buildMapRaw_sentinel_free :
    ∀ (ps : List (Vec3 × ℤ)) (m : CellMap),
      sentinel ∉ m.map Prod.fst →
      sentinel ∉ (buildMapRaw ps m).map Prod.fst := by
  intro ps
  induction ps with
  | nil => intro m hm; simpa [buildMapRaw] using hm
  | cons p rest ih =>
      obtain ⟨v, id⟩ := p
      intro m hm
      simp only [buildMapRaw]
      split_ifs with h
      · exact ih m hm
      · refine ih _ ?_
        intro hmem
        rcases mem_keys_mapInsert m id v sentinel hmem with h2 | h2
        · exact hm h2
        · exact h h2.symm

theorem buildMapRaw_filter_id :
    ∀ (ps : List (Vec3 × ℤ)) (m : CellMap),
      buildMapRaw (ps.filter (fun p => p.2 ≠ sentinel)) m = buildMapRaw ps m := by
  intro ps
  induction ps with
  | nil => intro m; rfl
  | cons p rest ih =>
      obtain ⟨v, id⟩ := p
      intro m
      rw [List.filter_cons]
      by_cases h : id = sentinel
      · rw [if_neg (by simp [h]), show buildMapRaw ((v, id) :: rest) m =
          buildMapRaw rest (if id = sentinel then m else mapInsert m id v) from rfl,
          if_pos h]
        exact ih m
      · rw [if_pos (by simp [h]), show buildMapRaw ((v, id) :: rest) m =
          buildMapRaw rest (if id = sentinel then m else mapInsert m id v) from rfl,
          if_neg h,
          show buildMapRaw ((v, id) ::
              rest.filter (fun p => p.2 ≠ sentinel)) m =
            buildMapRaw (rest.filter (fun p => p.2 ≠ sentinel))
              (if id = sentinel then m else mapInsert m id v) from rfl,
          if_neg h]
        exact ih (mapInsert m id v)

/-- C9: in the hashmap built by `BuildSpatialPartitionSystem`, no cell is
keyed by the sentinel id, and particles whose assigned cell id is the
sentinel contribute nothing — filtering them out of the input leaves the
resulting hashmap unchanged, so such a particle's velocity is inserted
into no `PartitionCell` and it is counted in no cell's `particle_number`. -/
theorem build_partition_excludes_sentinel (n : ℤ) (width : ℚ)
    (particles : List (Vec3 × Vec3)) :
    (∀ kc ∈ buildRun n width particles, kc.1 ≠ sentinel) ∧
    buildRun n width
        (particles.filter (fun pv => pos_to_id pv.1 n width ≠ sentinel)) =
      buildRun n width particles := by
  constructor
  · intro kc hkc hkeq
    have hfree : sentinel ∉
        (buildMapRaw (particles.map
          (fun pv => (pv.2, pos_to_id pv.1 n width))) []).map Prod.fst :=
      buildMapRaw_sentinel_free _ [] (by simp)
    apply hfree
    rcases List.mem_map.mp hkc with ⟨a, ha, hak⟩
    exact List.mem_map.mpr ⟨a, ha, by rw [← hak] at hkeq; simpa using hkeq⟩
  · unfold buildRun
    rw [show (particles.filter (fun pv => pos_to_id pv.1 n width ≠ sentinel)).map
          (fun pv => (pv.2, pos_to_id pv.1 n width)) =
        (particles.map (fun pv => (pv.2, pos_to_id pv.1 n width))).filter
          (fun p => p.2 ≠ sentinel) from ?_,
      buildMapRaw_filter_id]
    induction particles with
    | nil => rfl
    | cons p rest ih =>
        rw [List.map_cons, List.filter_cons, List.filter_cons]
        by_cases h : pos_to_id p.1 n width = sentinel
        · rw [if_neg (by simp [h]), if_neg (by simp [h]), ih]
        · rw [if_pos (by simp [h]), if_pos (by simp [h]), List.map_cons, ih]

/-- C9 witness: the theorem applied to a concrete particle list containing
one in-extent particle and one out-of-extent particle. -/
theorem build_partition_excludes_sentinel_witness :
    (∀ kc ∈ buildRun 10 2 [((0, 0, 0), (1, 2, 3)), ((100, 0, 0), (4, 5, 6))],
      kc.1 ≠ sentinel) ∧
    buildRun 10 2 ([((0, 0, 0), (1, 2, 3)), ((100, 0, 0), (4, 5, 6))].filter
        (fun pv => pos_to_id pv.1 10 2 ≠ sentinel)) =
      buildRun 10 2 [((0, 0, 0), (1, 2, 3)), ((100, 0, 0), (4, 5, 6))] :=
  build_partition_excludes_sentinel 10 2
    [((0, 0, 0), (1, 2, 3)), ((100, 0, 0), (4, 5, 6))]

theorem cellFresh_push (c : PartitionCell) (v : Vec3) (h : CellFresh c) :
    CellFresh (c.push v) := by
  obtain ⟨h1, h2, h3, h4, h5, h6, h7⟩ := h
  exact ⟨by simp [PartitionCell.push], h2, h3, h4, h5, h6, h7⟩

theorem cellFresh_default_push (v : Vec3) :
    CellFresh (PartitionCell.default.push v) := by
  exact ⟨by simp [PartitionCell.push, PartitionCell.default], rfl, rfl, rfl, rfl, rfl, rfl⟩

theorem mapInsert_fresh (m : CellMap) (id : ℤ) (v : Vec3)
    (h : ∀ kc ∈ m, CellFresh kc.2) :
    ∀ kc ∈ mapInsert m id v, CellFresh kc.2 := by
  induction m with
  | nil =>
      intro kc hkc
      simp only [mapInsert, List.mem_cons, List.not_mem_nil, or_false] at hkc
      rw [hkc]
      exact cellFresh_default_push v
  | cons kc0 rest ih =>
      obtain ⟨k1, c1⟩ := kc0
      intro kc hkc
      simp only [mapInsert] at hkc
      split_ifs at hkc with he
      · rcases List.mem_cons.mp hkc with hkc | hkc
        · rw [hkc]
          exact cellFresh_push c1 v (h (k1, c1) (List.mem_cons_self _ _))
        · exact h kc (List.mem_cons_of_mem _ hkc)
      · rcases List.mem_cons.mp hkc with hkc | hkc
        · rw [hkc]
          exact h (k1, c1) (List.mem_cons_self _ _)
        · exact ih (fun kc2 hkc2 => h kc2 (List.mem_cons_of_mem _ hkc2)) kc hkc

theorem buildMapRaw_fresh :
    ∀ (ps : List (Vec3 × ℤ)) (m : CellMap),
      (∀ kc ∈ m, CellFresh kc.2) →
      ∀ kc ∈ buildMapRaw ps m, CellFresh kc.2 := by
  intro ps
  induction ps with
  | nil => intro m hm; exact hm
  | cons p rest ih =>
      obtain ⟨v, id⟩ := p
      intro m hm
      simp only [buildMapRaw]
      split_ifs with h
      · exact ih m hm
      · exact ih _ (mapInsert_fresh m id v hm)

/-- C10: every cell of the hashmap produced by
`BuildSpatialPartitionSystem::run` holds at least one velocity, has
`particle_number` equal to the length of its velocity list, and has all
remaining statistics fields still at their default zeros. -/
theorem build_partition_cell_defaults (n : ℤ) (width : ℚ)
    (particles : List (Vec3 × Vec3)) :
    ∀ kc ∈ buildRun n width particles,
      kc.2.velocities ≠ [] ∧
      kc.2.particle_number = (kc.2.velocities.length : ℤ) ∧
      kc.2.density = 0 ∧ kc.2.volume = 0 ∧ kc.2.atom_number = 0 ∧
      kc.2.expected_collision_number = 0 ∧ kc.2.collision_number = 0 := by
  intro kc hkc
  rcases List.mem_map.mp hkc with ⟨a, ha, hak⟩
  have hfresh : CellFresh a.2 :=
    buildMapRaw_fresh _ [] (by simp) a ha
  obtain ⟨h1, h2, h3, h4, h5, h6, h7⟩ := hfresh
  rw [← hak]
  exact ⟨h1, rfl, h2, h3, h4, h5, h6⟩

/-- C10 witness: the theorem applied to a concrete one-particle list and
the concrete cell it produces. -/
theorem build_partition_cell_defaults_witness :
    ((555, ({ velocities := [(9, 9, 9)]
              expected_collision_number := 0
              collision_number := 0
              density := 0
              volume := 0
              atom_number := 0
              particle_number := 1 } : PartitionCell)) ∈
        buildRun 10 2 [((0, 0, 0), (9, 9, 9))]) ∧
    (([((9 : ℚ), (9 : ℚ), (9 : ℚ))] : List Vec3) ≠ [] ∧
      (1 : ℤ) = (([((9 : ℚ), (9 : ℚ), (9 : ℚ))] : List Vec3).length : ℤ) ∧
      (0 : ℚ) = 0 ∧ (0 : ℚ) = 0 ∧ (0 : ℚ) = 0 ∧ (0 : ℚ) = 0 ∧ (0 : ℤ) = 0) := by
  have hmem : (555, ({ velocities := [(9, 9, 9)]
                       expected_collision_number := 0
                       collision_number := 0
                       density := 0
                       volume := 0
                       atom_number := 0
                       particle_number := 1 } : PartitionCell)) ∈
      buildRun 10 2 [((0, 0, 0), (9, 9, 9))] := by
    norm_num [buildRun, buildMapRaw, mapInsert, countCells, pos_to_id, sentinel,
      PartitionCell.default, PartitionCell.push, PartitionCell.count_particles]
  exact ⟨hmem, build_partition_cell_defaults 10 2 [((0, 0, 0), (9, 9, 9))] _ hmem⟩
